import Mathlib

/-!
Verification development for the adaptive quiz engine (ai_quizzer).

Shallow embedding of the core components:
* the Distribution Planner (`get_adaptive_question_distribution`, app/quiz/crud.py),
* the Content Requester retry loop (`generate_quiz_ai`, app/quiz/ai_utils.py),
* the Grader (`evaluate_quiz_ai`, app/quiz/ai_utils.py),
* the Leaderboard Ranker (`get_leaderboard_data` + `get_leaderboard`,
  app/quiz/crud.py and app/quiz/routes.py),
* the two public route entry points (`generate_quiz`, `evaluate_quiz`,
  app/quiz/routes.py), modelled with explicit traces of the collaborator
  calls they make (planner invocations, provider calls, persistence).

Modelling conventions:
* Python numbers (`int`/`float` scores, marks and points) are embedded as `ℚ`;
  Python float multiplications such as `int(total_questions * 0.3)` are
  embedded as exact rational arithmetic followed by truncation, i.e.
  `total_questions * 3 / 10` in `ℕ`.  For every quantity reachable through the
  public interface (5 ≤ total_questions ≤ 30) the exact-rational value of the
  truncation agrees with the IEEE-double computation in the source.
* Python strings are embedded as Lean `String`; `str.upper`, `str.strip` and
  `str.startswith` are given explicit character-list implementations
  (`pyUpper`, `pyStrip`, `pyBeginsWith`) matching Python's behaviour on the
  ASCII data the program manipulates.
* `round(x, d)` (Python 3 banker's rounding) is embedded as exact rational
  round-half-to-even at `d` decimal digits (`pyRound`).
* Fallible Python code (raised exceptions) is embedded with `Except`;
  database queries are embedded by passing the fetched rows as arguments.
-/

namespace AIQuizzer

/-- Python `str.upper()` restricted to the character-wise ASCII case map. -/
def pyUpper (s : String) : String := ⟨s.data.map Char.toUpper⟩

/-- Python `str.strip()`: drop leading and trailing whitespace. -/
def pyStrip (s : String) : String :=
  ⟨((s.data.dropWhile Char.isWhitespace).reverse.dropWhile Char.isWhitespace).reverse⟩

/-- Does the character list start with the given pattern?  (Helper for
Python's `str.startswith`.)  First argument is the pattern. -/
def beginsWith : List Char → List Char → Bool
  | [], _ => true
  | _ :: _, [] => false
  | p :: ps, c :: cs => p = c && beginsWith ps cs

/-- Python `s.startswith(p)`. -/
def pyBeginsWith (s p : String) : Bool := beginsWith p.data s.data

/-- One stored submission row, as read back by the planner / ranker queries
(`models.Submission`): only the fields the core logic inspects. -/
structure SubmissionRec where
  total_score : ℚ
  max_score : ℚ
  deriving DecidableEq

/-- The difficulty mix returned by the Distribution Planner
(the dict `{'easy': _, 'medium': _, 'hard': _}` in crud.py). -/
structure DifficultyMix where
  easy : ℕ
  medium : ℕ
  hard : ℕ
  deriving DecidableEq

/-- Sum of `total_score` over the fetched submissions
(the `total_score` accumulator in `get_adaptive_question_distribution`). -/
def sumScores (hist : List SubmissionRec) : ℚ := (hist.map (·.total_score)).sum

/-- Sum of `max_score` over the fetched submissions
(the `max_possible` accumulator in `get_adaptive_question_distribution`). -/
def sumMaxScores (hist : List SubmissionRec) : ℚ := (hist.map (·.max_score)).sum

/-- The `performance_ratio` computed in `get_adaptive_question_distribution`:
`total_score / max_possible if max_possible > 0 else 0.5`. -/
def performanceRatio (hist : List SubmissionRec) : ℚ :=
  if 0 < sumMaxScores hist then sumScores hist / sumMaxScores hist else 1/2

/-- Embedding of `crud.get_adaptive_question_distribution` (crud.py 159-221).
The database query (user's submissions for the subject, most recent first) is
modelled by passing the fetched rows as `history`; the query's `.limit(3)` is
the `.take 3`.  `int(n * 0.5)` etc. are embedded as `n * 5 / 10` etc. in `ℕ`
(floor).  `max 1 _` is Python's `max(1, _)`. -/
def get_adaptive_question_distribution (history : List SubmissionRec)
    (total_questions : ℕ) : DifficultyMix :=
  if history.take 3 = [] then
    { easy := total_questions * 5 / 10
      medium := total_questions * 3 / 10
      hard := max 1 (total_questions - total_questions * 5 / 10 - total_questions * 3 / 10) }
  else
    if 4/5 < performanceRatio (history.take 3) then
      { easy := max 1 (total_questions * 2 / 10)
        medium := total_questions * 4 / 10
        hard := max 1 (total_questions - total_questions * 2 / 10 - total_questions * 4 / 10) }
    else if 1/2 < performanceRatio (history.take 3) then
      { easy := total_questions * 4 / 10
        medium := total_questions * 4 / 10
        hard := max 1 (total_questions - total_questions * 4 / 10 - total_questions * 4 / 10) }
    else
      { easy := total_questions * 6 / 10
        medium := total_questions * 3 / 10
        hard := max 1 (total_questions - total_questions * 6 / 10 - total_questions * 3 / 10) }

/-- Shorthand: the total of a difficulty mix. -/
def DifficultyMix.total (d : DifficultyMix) : ℕ := d.easy + d.medium + d.hard

/-- C1 (counterexample).  The claimed invariant
`easy + medium + hard == total_questions` fails for `total_questions = 4` with
a high-performance history (ratio 9/10 > 0.8): the high-performance branch
clamps `easy` to `max(1, int(0.2*4)) = 1` but computes `hard` from the
unclamped `int(0.2*4) = 0`, so the mix is `{easy:1, medium:1, hard:3}` with
total 5 ≠ 4. -/
theorem c1_planner_sum_counterexample :
    (get_adaptive_question_distribution [⟨9, 10⟩] 4).total ≠ 4 := by
  have hr : performanceRatio [⟨9, 10⟩] = 9/10 := by
    norm_num [performanceRatio, sumScores, sumMaxScores]
  have hd : get_adaptive_question_distribution [⟨9, 10⟩] 4 = ⟨1, 1, 3⟩ := by
    unfold get_adaptive_question_distribution
    rw [show ([⟨9, 10⟩] : List SubmissionRec).take 3 = [⟨9, 10⟩] from rfl]
    rw [if_neg (by simp), if_pos (by rw [hr]; norm_num)]
    decide
  rw [hd]
  simp [DifficultyMix.total]

/-- C1 (amended).  For every `total_questions ≥ 5` and any history — hence for
everything reachable through the public interface — and also for every
`total_questions ≥ 1` whenever the history is empty or the performance ratio
is at most 0.8, the planner's mix satisfies
`easy + medium + hard = total_questions` and `hard ≥ 1` (all fields are
nonnegative by type).  Only in the high-performance branch with
`total_questions ≤ 4` can the sum exceed `total_questions`. -/
theorem c1_planner_mix_invariant (history : List SubmissionRec) (n : ℕ)
    (h : 5 ≤ n ∨ (1 ≤ n ∧ (history = [] ∨ performanceRatio (history.take 3) ≤ 4/5))) :
    (get_adaptive_question_distribution history n).total = n ∧
    1 ≤ (get_adaptive_question_distribution history n).hard := by
  have h1n : 1 ≤ n := by rcases h with h | h <;> omega
  unfold get_adaptive_question_distribution DifficultyMix.total
  split_ifs with hemp hhi hmid
  · dsimp only
    constructor <;> omega
  · have h5 : 5 ≤ n := by
      rcases h with h | ⟨hn, hc⟩
      · exact h
      · rcases hc with hc | hc
        · exact absurd (by rw [hc]; rfl) hemp
        · exact absurd hhi (not_lt.mpr hc)
    dsimp only
    constructor <;> omega
  · dsimp only
    constructor <;> omega
  · dsimp only
    constructor <;> omega

/-- C1 witness: a first-time user (empty history) asking for 10 questions gets
the balanced mix `{easy:5, medium:3, hard:2}` summing to 10 with `hard ≥ 1`. -/
theorem c1_planner_mix_invariant_witness :
    (get_adaptive_question_distribution [] 10).total = 10 ∧
    1 ≤ (get_adaptive_question_distribution [] 10).hard :=
  c1_planner_mix_invariant [] 10 (Or.inl (by norm_num))

/-- One question dict as produced by the provider / stored in `quiz_json`.
Keys the code reads with `.get(key, default)` are embedded as `Option`;
`correct_option` is read as `str(q.get("correct_option", ""))`, embedded as a
plain `String` with `""` for a missing key. -/
structure Question where
  question : Option String
  options : List String
  correct_option : String
  difficulty : Option String
  points : Option ℚ
  marks : Option ℚ
  explanation : Option String
  topic : Option String
  deriving DecidableEq

/-- A provider failure as seen by `generate_quiz_ai`'s retry loop: the inner
`generate_questions` raises `ValueError` on schema violations and the client
call can time out; both are just exceptions to the loop. -/
inductive ProviderFailure where
  | validation
  | timeout
  deriving DecidableEq

/-- Embedding of the live control flow of `generate_quiz_ai`
(ai_utils.py 123-137): `for attempt in range(2): try: return
generate_questions() except: if attempt == max_retries - 1: raise`.
The provider call of each attempt is modelled by the oracle `attempt`,
mapping the attempt index to that attempt's outcome.  Note that the second
retry loop and the fallback-question synthesis at ai_utils.py 139-205 are
unreachable: the first loop either returns a success or re-raises the last
failure (and even the `return {"questions": []}` on line 137 is dead, since
the loop always returns or raises). -/
def generate_quiz_ai (attempt : ℕ → Except ProviderFailure (List Question)) :
    Except ProviderFailure (List Question) :=
  match attempt 0 with
  | .ok d => .ok d
  | .error _ =>
    match attempt 1 with
    | .ok d => .ok d
    | .error e => .error e

/-- C2 (code bug).  When both provider attempts fail (here: with a validation
failure), `generate_quiz_ai` propagates the second failure to its caller
instead of synthesizing the fallback quiz: the fallback block at
ai_utils.py 139-205 is dead code behind the `raise` on line 134, so no
GeneratedQuizSet is returned, contradicting the claimed
retry-then-fallback guarantee. -/
theorem c2_requester_propagates_failure :
    generate_quiz_ai (fun _ => .error .validation) = .error .validation := rfl

/-- The placeholder question appended by `generate_quiz` (routes.py 90-97)
when the provider returned too few questions; `idx` is
`len(questions) + 1` at append time and `mediumPoints` is
`req.points_strategy.medium`. -/
def placeholderQuestion (idx : ℕ) (mediumPoints : ℚ) : Question :=
  { question := some ("Additional question " ++ toString idx)
    options := ["A) Option A", "B) Option B", "C) Option C", "D) Option D"]
    correct_option := "A"
    difficulty := some "medium"
    points := some mediumPoints
    marks := none
    explanation := some "Placeholder explanation."
    topic := none }

/-- The `while len(questions) < total_questions: questions.append(...)` loop
of routes.py 89-97. -/
def padQuestions (qs : List Question) (n : ℕ) (mediumPoints : ℚ) : List Question :=
  if qs.length < n then
    padQuestions (qs ++ [placeholderQuestion (qs.length + 1) mediumPoints]) n mediumPoints
  else qs
termination_by n - qs.length
decreasing_by simp only [List.length_append, List.length_cons, List.length_nil]; omega

/-- The count-mismatch handling of routes.py 86-97: truncate with
`questions[:total_questions]`, then pad with placeholders. -/
def adjustQuestionCount (qs : List Question) (n : ℕ) (mediumPoints : ℚ) : List Question :=
  if qs.length ≠ n then padQuestions (qs.take n) n mediumPoints else qs

/-- The list of placeholders appended when padding a list of length `k` up to
length `n`. -/
def placeholderList (k n : ℕ) (mediumPoints : ℚ) : List Question :=
  (List.range (n - k)).map (fun i => placeholderQuestion (k + i + 1) mediumPoints)

theorem placeholderList_length (k n : ℕ) (mp : ℚ) :
    (placeholderList k n mp).length = n - k := by
  simp [placeholderList]

theorem placeholderList_cons (k n : ℕ) (mp : ℚ) (h : k < n) :
    placeholderList k n mp =
      placeholderQuestion (k + 1) mp :: placeholderList (k + 1) n mp := by
  unfold placeholderList
  rw [show n - k = (n - (k + 1)) + 1 by omega, List.range_succ_eq_map]
  simp only [List.map_cons, List.map_map]
  congr 1
  · apply List.map_congr_left
    intro i _
    simp only [Function.comp_apply]
    congr 1
    omega

theorem padQuestions_eq (qs : List Question) (n : ℕ) (mp : ℚ)
    (h : qs.length ≤ n) :
    padQuestions qs n mp = qs ++ placeholderList qs.length n mp := by
  generalize hk : n - qs.length = k
  induction k generalizing qs with
  | zero =>
    rw [padQuestions]
    rw [if_neg (by omega)]
    rw [show placeholderList qs.length n mp = [] by
      unfold placeholderList
      rw [show n - qs.length = 0 by omega]
      rfl]
    simp
  | succ k ih =>
    rw [padQuestions]
    rw [if_pos (by omega)]
    rw [ih (qs ++ [placeholderQuestion (qs.length + 1) mp])
        (by simp only [List.length_append, List.length_cons, List.length_nil]; omega)
        (by simp only [List.length_append, List.length_cons, List.length_nil]; omega)]
    rw [placeholderList_cons qs.length n mp (by omega)]
    simp

/-- C3.  The question list persisted and returned by `generate_quiz` after the
count-mismatch handling has length exactly `n`: extra questions are truncated
(`questions[:n]`), and when the provider returned fewer than `n` questions
the original list is extended with placeholder questions (medium difficulty,
four lettered options, correct option `A`, the medium point value) until the
count matches. -/
theorem c3_question_count_adjusted (qs : List Question) (n : ℕ) (mp : ℚ) :
    (adjustQuestionCount qs n mp).length = n ∧
    (n ≤ qs.length → adjustQuestionCount qs n mp = qs.take n) ∧
    (qs.length < n →
      adjustQuestionCount qs n mp = qs ++ placeholderList qs.length n mp ∧
      ∀ p ∈ placeholderList qs.length n mp,
        p.difficulty = some "medium" ∧
        p.options = ["A) Option A", "B) Option B", "C) Option C", "D) Option D"] ∧
        p.correct_option = "A" ∧
        p.points = some mp) := by
  have hmem : ∀ p ∈ placeholderList qs.length n mp,
      p.difficulty = some "medium" ∧
      p.options = ["A) Option A", "B) Option B", "C) Option C", "D) Option D"] ∧
      p.correct_option = "A" ∧
      p.points = some mp := by
    intro p hp
    unfold placeholderList at hp
    rcases List.mem_map.mp hp with ⟨i, _, rfl⟩
    exact ⟨rfl, rfl, rfl, rfl⟩
  unfold adjustQuestionCount
  by_cases hlen : qs.length = n
  · rw [if_neg (by omega)]
    refine ⟨hlen, fun _ => ?_, fun hlt => absurd hlt (by omega)⟩
    rw [← hlen, List.take_length]
  · rw [if_pos hlen]
    have htl : (qs.take n).length = min n qs.length := List.length_take n qs
    rw [padQuestions_eq (qs.take n) n mp (by omega)]
    refine ⟨?_, ?_, ?_⟩
    · rw [List.length_append, placeholderList_length, htl]
      omega
    · intro hge
      rw [show placeholderList (qs.take n).length n mp = [] by
        unfold placeholderList
        rw [show n - (qs.take n).length = 0 by omega]
        rfl]
      simp
    · intro hlt
      rw [List.take_of_length_le (le_of_lt hlt)]
      exact ⟨rfl, hmem⟩

/-- C3 witness: one question adjusted for a requested total of 3 is padded
with two placeholders to length 3; three questions requested as 2 are
truncated to the first 2. -/
theorem c3_question_count_adjusted_witness :
    (adjustQuestionCount [placeholderQuestion 1 1] 3 2).length = 3 ∧
    adjustQuestionCount [placeholderQuestion 1 1] 3 2 =
      [placeholderQuestion 1 1] ++ placeholderList 1 3 2 ∧
    adjustQuestionCount [placeholderQuestion 1 1, placeholderQuestion 2 1,
      placeholderQuestion 3 1] 2 2 =
      [placeholderQuestion 1 1, placeholderQuestion 2 1, placeholderQuestion 3 1].take 2 := by
  refine ⟨(c3_question_count_adjusted [placeholderQuestion 1 1] 3 2).1, ?_, ?_⟩
  · exact ((c3_question_count_adjusted [placeholderQuestion 1 1] 3 2).2.2
      (by simp)).1
  · exact (c3_question_count_adjusted [placeholderQuestion 1 1, placeholderQuestion 2 1,
      placeholderQuestion 3 1] 2 2).2.1 (by simp)

/-- Errors raised by `evaluate_quiz_ai`: the `ValueError` of the input guard
(ai_utils.py 215-216), and the `IndexError` that `str(options[0])[0]` raises
on line 255 when no option matches and the first option is the empty
string. -/
inductive EvalError where
  | inputMismatch
  | indexError
  deriving DecidableEq

/-- `q.get("marks", q.get("points", 1))` (ai_utils.py 228/238). -/
def questionMarks (q : Question) : ℚ := q.marks.getD (q.points.getD 1)

/-- `correct_opt = str(q.get("correct_option", "")).strip().upper()`
(ai_utils.py 241). -/
def correctOptNorm (q : Question) : String := pyUpper (pyStrip q.correct_option)

/-- The character sequence `correct_opt.upper() + ")"` that the option scan
matches against (ai_utils.py 248). -/
def optionMatchChars (q : Question) : List Char :=
  (pyUpper (correctOptNorm q)).data ++ [')']

/-- `opt_str.upper().startswith(correct_opt.upper() + ")")` for one option. -/
def optionMatches (q : Question) (opt : String) : Bool :=
  beginsWith (optionMatchChars q) (pyUpper opt).data

/-- The `for opt in options: ... break` scan of ai_utils.py 246-251: the
first option whose uppercased text starts with `correct_opt.upper() + ")"`. -/
def findCorrectOption (q : Question) : Option String :=
  q.options.find? (optionMatches q)

/-- Lines 244-255: compute `correct_letter` (as `Option Char`; Python uses a
one-character string or `""`) and `correct_text`.  The matched branch takes
`opt_str[0].upper()` and `opt_str[3:] if len(opt_str) > 3 else ""`; the
fallback branch takes `str(options[0])[0].upper()`, which raises `IndexError`
when the first option is the empty string. -/
def correctLetterText (q : Question) : Except EvalError (Option Char × String) :=
  match findCorrectOption q with
  | some opt =>
    match opt.data.head? with
    | some c => .ok (some c.toUpper, if 3 < opt.data.length then ⟨opt.data.drop 3⟩ else "")
    | none => .error .indexError
  | none =>
    match q.options with
    | [] => .ok (none, "")
    | o :: _ =>
      match o.data.head? with
      | some c => .ok (some c.toUpper, "")
      | none => .error .indexError

/-- Line 258: `user_ans = str(user_ans).strip().upper() if user_ans else ""`. -/
def normalizeAnswer (ans : String) : String :=
  if ans = "" then "" else pyUpper (pyStrip ans)

/-- Render an optional letter the way Python's f-string renders
`correct_letter` (one-character string, or `""`). -/
def letterStr (cl : Option Char) : String :=
  match cl with
  | some c => String.singleton c
  | none => ""

/-- One entry of the grader's `feedback_list` (ai_utils.py 268-276). -/
structure FeedbackEntry where
  question : String
  user_answer : String
  correct_answer : String
  is_correct : Bool
  marks_awarded : ℚ
  max_marks : ℚ
  explanation : String
  deriving DecidableEq

/-- One entry of `incorrect_questions` (ai_utils.py 282-288). -/
structure IncorrectEntry where
  question : String
  user_answer : String
  correct_answer : String
  topic : String
  difficulty : String
  deriving DecidableEq

/-- Lines 258-262: `user_letter == correct_letter`, where `user_letter` is
the first character of the normalized answer (or `""`, i.e. `none`); note
that Python's `"" == ""` comparison makes an empty answer "correct" when no
correct letter was determined, matched here by `none == none`. -/
def isAnswerCorrect (cl : Option Char) (ans : String) : Bool :=
  (normalizeAnswer ans).data.head? == cl

/-- The per-question body of the grading loop (ai_utils.py 232-288): produces
the feedback entry and, for a wrong answer, the incorrect-question record. -/
def gradeQuestion (i : ℕ) (q : Question) (ans : String) :
    Except EvalError (FeedbackEntry × Option IncorrectEntry) :=
  match correctLetterText q with
  | .error e => .error e
  | .ok (cl, ctext) =>
    let qMarks := questionMarks q
    let qText := q.question.getD ("Question " ++ toString (i + 1))
    .ok ({ question := qText
           user_answer := normalizeAnswer ans
           correct_answer :=
             if letterStr cl ≠ "" then letterStr cl ++ ") " ++ ctext
             else "No correct answer provided"
           is_correct := isAnswerCorrect cl ans
           marks_awarded := if isAnswerCorrect cl ans then qMarks else 0
           max_marks := qMarks
           explanation := q.explanation.getD "No explanation provided." },
         if isAnswerCorrect cl ans then none
         else some { question := qText
                     user_answer := normalizeAnswer ans
                     correct_answer := letterStr cl ++ ") " ++ ctext
                     topic := q.topic.getD "General"
                     difficulty := q.difficulty.getD "Medium" })

/-- The grading loop over `zip(quiz_data, user_answers)` (ai_utils.py 232),
accumulating `total_score`, `correct_answers`, `feedback_list` and
`incorrect_questions`; a raised exception aborts the whole evaluation. -/
def gradeList (i : ℕ) :
    List Question → List String →
    Except EvalError (ℚ × ℕ × List FeedbackEntry × List IncorrectEntry)
  | [], _ => .ok (0, 0, [], [])
  | _ :: _, [] => .ok (0, 0, [], [])
  | q :: qs, a :: ans =>
    match gradeQuestion i q a with
    | .error e => .error e
    | .ok (fb, inc) =>
      match gradeList (i + 1) qs ans with
      | .error e => .error e
      | .ok (t, c, fbs, incs) =>
        .ok (fb.marks_awarded + t,
             (if fb.is_correct then 1 else 0) + c,
             fb :: fbs,
             match inc with
             | none => incs
             | some e => e :: incs)

/-- The insertion-ordered topic tally of ai_utils.py 296-301 (a Python dict
keyed by topic, embedded as an association list in first-occurrence order). -/
def addTopicCount (ts : List (String × ℕ)) (t : String) : List (String × ℕ) :=
  if ts.any (fun p => p.1 = t) then
    ts.map (fun p => if p.1 = t then (p.1, p.2 + 1) else p)
  else ts ++ [(t, 1)]

/-- `topics` after the grouping loop over `incorrect_questions`. -/
def topicCounts (incs : List IncorrectEntry) : List (String × ℕ) :=
  incs.foldl (fun ts q => addTopicCount ts q.topic) []

/-- Abstract numeric rendering used in the score lines of the suggestions
(Python's float formatting is not modelled; no claim inspects these
strings). -/
def ratStr (x : ℚ) : String :=
  toString x.num ++ (if x.den = 1 then "" else "/" ++ toString x.den)

/-- One line of the per-topic breakdown (ai_utils.py 312):
`f"- {topic}: {count} incorrect answer{'s' if count > 1 else ''}"`. -/
def topicLine (t : String) (c : ℕ) : String :=
  "- " ++ t ++ ": " ++ toString c ++ " incorrect answer" ++ (if 1 < c then "s" else "")

/-- The suggestion generation of ai_utils.py 294-326. -/
def buildSuggestions (correct nq : ℕ) (total maxS pct : ℚ)
    (incs : List IncorrectEntry) : List String :=
  if incs ≠ [] then
    (["You scored " ++ toString correct ++ " out of " ++ toString nq ++
        " questions correctly.",
      "Total score: " ++ ratStr total ++ "/" ++ ratStr maxS ++ " (" ++
        ratStr pct ++ "%)"]
      ++ (if topicCounts incs ≠ [] then
            "\nAreas to focus on:" :: (topicCounts incs).map (fun p => topicLine p.1 p.2)
          else [])
      ++ ["\nTips for improvement:",
          "- Review the explanations for incorrect answers",
          "- Practice more questions on the topics you struggled with",
          "- Take notes on key concepts you found challenging"])
  else
    ["🎉 Perfect score! You got all " ++ toString nq ++ " questions right!",
     "Total score: " ++ ratStr total ++ "/" ++ ratStr maxS ++ " (100%)",
     "\nGreat job! You've mastered this material.",
     "Consider trying a more challenging quiz next time!"]

/-- Round half to even, to an integer (the rounding of Python 3's builtin
`round`). -/
def roundHalfEven (x : ℚ) : ℤ :=
  if x - ⌊x⌋ < 1/2 then ⌊x⌋
  else if 1/2 < x - ⌊x⌋ then ⌊x⌋ + 1
  else if ⌊x⌋ % 2 = 0 then ⌊x⌋ else ⌊x⌋ + 1

/-- Python `round(x, d)`, embedded as exact rational half-to-even rounding at
`d` decimal digits. -/
def pyRound (x : ℚ) (d : ℕ) : ℚ := (roundHalfEven (x * 10 ^ d) : ℚ) / 10 ^ d

/-- The `result` dict returned by `evaluate_quiz_ai` (ai_utils.py 329-338);
the constant `"status": "success"` field is omitted. -/
structure EvalResult where
  total_score : ℚ
  max_score : ℚ
  percentage : ℚ
  feedback : List FeedbackEntry
  suggestions : List String
  correct_answers : ℕ
  total_questions : ℕ
  deriving DecidableEq

/-- Embedding of `evaluate_quiz_ai` (ai_utils.py 211-346): input guard,
first pass summing `max_score`, grading loop, percentage, suggestions and
result assembly. -/
def evaluate_quiz_ai (quiz : List Question) (answers : List String) :
    Except EvalError EvalResult :=
  if quiz = [] ∨ answers = [] ∨ quiz.length ≠ answers.length then
    .error .inputMismatch
  else
    match gradeList 0 quiz answers with
    | .error e => .error e
    | .ok (total, correct, fbs, incs) =>
      let maxScore := (quiz.map questionMarks).sum
      let percentage := if 0 < maxScore then total / maxScore * 100 else 0
      .ok { total_score := total
            max_score := maxScore
            percentage := pyRound percentage 2
            feedback := fbs
            suggestions := buildSuggestions correct quiz.length total maxScore percentage incs
            correct_answers := correct
            total_questions := quiz.length }

theorem beginsWith_cons {p : Char} {ps l : List Char}
    (h : beginsWith (p :: ps) l = true) :
    ∃ cs, l = p :: cs ∧ beginsWith ps cs = true := by
  cases l with
  | nil => simp [beginsWith] at h
  | cons c cs =>
    simp only [beginsWith, Bool.and_eq_true, decide_eq_true_eq] at h
    exact ⟨cs, by rw [h.1], h.2⟩

theorem correctLetterText_error (q : Question) (e : EvalError)
    (h : correctLetterText q = .error e) : e = .indexError := by
  unfold correctLetterText at h
  split at h
  · split at h
    · exact Except.noConfusion h
    · injection h with h2; exact h2.symm
  · split at h
    · exact Except.noConfusion h
    · split at h
      · exact Except.noConfusion h
      · injection h with h2; exact h2.symm

theorem gradeQuestion_error (i : ℕ) (q : Question) (a : String) (e : EvalError)
    (h : gradeQuestion i q a = .error e) : e = .indexError := by
  unfold gradeQuestion at h
  split at h
  next e2 heq =>
    injection h with h2
    rw [← h2]
    exact correctLetterText_error q e2 heq
  next cl ctext heq => exact Except.noConfusion h

theorem gradeList_error (i : ℕ) (qs : List Question) (ans : List String)
    (e : EvalError) (h : gradeList i qs ans = .error e) : e = .indexError := by
  induction qs generalizing i ans e with
  | nil => exact Except.noConfusion h
  | cons q qs ih =>
    cases ans with
    | nil => exact Except.noConfusion h
    | cons a ans =>
      simp only [gradeList] at h
      split at h
      next e2 heq =>
        injection h with h2
        rw [← h2]
        exact gradeQuestion_error i q a e2 heq
      next fb inc heq =>
        split at h
        next e2 heq2 =>
          injection h with h2
          rw [← h2]
          exact ih (i + 1) ans e2 heq2
        next t c fbs incs heq2 => exact Except.noConfusion h

/-- Condition under which the option scan cannot hit the `IndexError` of
`str(options[0])[0]`: the options list is empty (the fallback is skipped),
some option matches, or the first option is a non-empty string. -/
def questionGradable (q : Question) : Bool :=
  (q.options.headD "" ≠ "") || q.options.any (optionMatches q) || q.options.isEmpty

theorem correctLetterText_ok_of_gradable (q : Question)
    (h : questionGradable q = true) :
    ∃ out, correctLetterText q = .ok out := by
  unfold correctLetterText
  split
  next opt heq =>
    split
    next c heq2 => exact ⟨_, rfl⟩
    next heq2 =>
      exfalso
      have hmem : optionMatches q opt = true := List.find?_some heq
      unfold optionMatches at hmem
      obtain ⟨p, ps, hpat⟩ : ∃ p ps, optionMatchChars q = p :: ps := by
        unfold optionMatchChars
        cases hc : (pyUpper (correctOptNorm q)).data with
        | nil => exact ⟨')', [], by simp⟩
        | cons a as => exact ⟨a, as ++ [')'], by simp⟩
      rw [hpat] at hmem
      obtain ⟨cs, hl, -⟩ := beginsWith_cons hmem
      have hnil : opt.data = [] := List.head?_eq_none_iff.mp heq2
      have : (pyUpper opt).data = [] := by simp [pyUpper, hnil]
      rw [hl] at this
      exact List.noConfusion this
  next heq =>
    split
    next heq2 => exact ⟨_, rfl⟩
    next o rest heq2 =>
      split
      next c heq3 => exact ⟨_, rfl⟩
      next heq3 =>
        exfalso
        have hno : ∀ x ∈ q.options, ¬(optionMatches q x = true) :=
          List.find?_eq_none.mp heq
        have hone : o ≠ "" := by
          unfold questionGradable at h
          rw [heq2] at h
          simp only [List.headD_cons, List.isEmpty_cons, Bool.or_false] at h
          rw [Bool.or_eq_true] at h
          rcases h with h1 | h1
          · exact of_decide_eq_true h1
          · exfalso
            rcases List.any_eq_true.mp h1 with ⟨x, hx, hpx⟩
            exact hno x (heq2 ▸ hx) hpx
        have hnil : o.data = [] := List.head?_eq_none_iff.mp heq3
        exact hone (by cases o; simp_all)

theorem gradeQuestion_ok_of_gradable (i : ℕ) (q : Question) (a : String)
    (h : questionGradable q = true) :
    ∃ out, gradeQuestion i q a = .ok out := by
  obtain ⟨⟨cl, ct⟩, hc⟩ := correctLetterText_ok_of_gradable q h
  unfold gradeQuestion
  rw [hc]
  exact ⟨_, rfl⟩

theorem gradeList_ok_of_gradable (i : ℕ) (qs : List Question) (ans : List String)
    (h : ∀ q ∈ qs, questionGradable q = true) :
    ∃ out, gradeList i qs ans = .ok out := by
  induction qs generalizing i ans with
  | nil => exact ⟨_, rfl⟩
  | cons q qs ih =>
    cases ans with
    | nil => exact ⟨_, rfl⟩
    | cons a ans =>
      obtain ⟨⟨fb, inc⟩, hq⟩ := gradeQuestion_ok_of_gradable i q a (h q (by simp))
      obtain ⟨⟨t, c, fbs, incs⟩, hl⟩ := ih (i + 1) ans (fun x hx => h x (by simp [hx]))
      cases inc with
      | none =>
        refine ⟨(fb.marks_awarded + t, (if fb.is_correct then 1 else 0) + c,
          fb :: fbs, incs), ?_⟩
        simp only [gradeList, hq, hl]
      | some e =>
        refine ⟨(fb.marks_awarded + t, (if fb.is_correct then 1 else 0) + c,
          fb :: fbs, e :: incs), ?_⟩
        simp only [gradeList, hq, hl]

/-- A question that makes the grader raise `IndexError`: its only option is
the empty string and nothing matches the correct option, so the fallback
`str(options[0])[0]` indexes into an empty string (ai_utils.py 255). -/
def emptyOptionQuestion : Question :=
  { question := none
    options := [""]
    correct_option := "A"
    difficulty := none
    points := none
    marks := none
    explanation := none
    topic := none }

/-- C4 (counterexample).  A non-empty, equal-length questions/answers pair on
which `evaluate_quiz_ai` does not return an EvaluationResult: with a single
question whose only option is `""` (and no matching option), the fallback
`str(options[0])[0]` raises `IndexError`, which is not the input-mismatch
`ValueError`.  This refutes the claim's clause that every non-empty pair of
equal length yields an EvaluationResult. -/
theorem c4_grader_not_total_counterexample :
    [emptyOptionQuestion].length = ["A"].length ∧
    evaluate_quiz_ai [emptyOptionQuestion] ["A"] = .error .indexError := by
  refine ⟨rfl, ?_⟩
  rfl

/-- C4 (amended).  The grader raises the input-mismatch error exactly when
the question list is empty, the answer list is empty, or the lengths differ
(and on any failure it produces no partial result, the evaluation being all
or nothing); it returns an EvaluationResult for every non-empty equal-length
pair in which each question either has an option matching its correct
option, an empty options list, or a non-empty first option — otherwise the
first-option fallback raises an `IndexError` rather than returning a
result. -/
theorem c4_grader_input_mismatch_iff (qs : List Question) (ans : List String) :
    (evaluate_quiz_ai qs ans = .error .inputMismatch ↔
      (qs = [] ∨ ans = [] ∨ qs.length ≠ ans.length)) ∧
    ((qs ≠ [] ∧ ans ≠ [] ∧ qs.length = ans.length ∧
        ∀ q ∈ qs, questionGradable q = true) →
      ∃ r, evaluate_quiz_ai qs ans = .ok r) := by
  constructor
  · by_cases hg : qs = [] ∨ ans = [] ∨ qs.length ≠ ans.length
    · rw [evaluate_quiz_ai, if_pos hg]
      simp [hg]
    · rw [evaluate_quiz_ai, if_neg hg]
      simp only [hg, iff_false]
      cases hl : gradeList 0 qs ans with
      | error e =>
        intro hc
        injection hc with h2
        exact EvalError.noConfusion (h2 ▸ gradeList_error 0 qs ans e hl)
      | ok out =>
        obtain ⟨t, c, fbs, incs⟩ := out
        intro hc
        exact Except.noConfusion hc
  · rintro ⟨h1, h2, h3, h4⟩
    have hg : ¬(qs = [] ∨ ans = [] ∨ qs.length ≠ ans.length) := by
      push_neg
      exact ⟨h1, h2, h3⟩
    rw [evaluate_quiz_ai, if_neg hg]
    obtain ⟨⟨t, c, fbs, incs⟩, hl⟩ := gradeList_ok_of_gradable 0 qs ans h4
    rw [hl]
    exact ⟨_, rfl⟩

/-- A representative well-formed question used by concrete witnesses. -/
def sampleQuestion : Question :=
  { question := some "What is 2 + 2?"
    options := ["A) 4", "B) 5", "C) 6", "D) 7"]
    correct_option := "A"
    difficulty := some "easy"
    points := some 1
    marks := none
    explanation := some "Adding 2 and 2 gives 4."
    topic := none }

/-- C4 witness: on a single well-formed question with one answer the grader
returns an EvaluationResult. -/
theorem c4_grader_input_mismatch_iff_witness :
    ∃ r, evaluate_quiz_ai [sampleQuestion] ["A"] = .ok r :=
  (c4_grader_input_mismatch_iff [sampleQuestion] ["A"]).2
    ⟨by decide, by decide, rfl, by decide⟩

theorem correctLetterText_some (q : Question) (hne : q.options ≠ [])
    (cl : Option Char) (s : String) (h : correctLetterText q = .ok (cl, s)) :
    ∃ c, cl = some c := by
  unfold correctLetterText at h
  split at h
  · split at h
    · injection h with h2
      rw [Prod.mk.injEq] at h2
      exact ⟨_, h2.1.symm⟩
    · exact Except.noConfusion h
  · split at h
    next heq2 => exact absurd heq2 hne
    next o rest heq2 =>
      split at h
      · injection h with h2
        rw [Prod.mk.injEq] at h2
        exact ⟨_, h2.1.symm⟩
      · exact Except.noConfusion h

theorem singleton_ne_empty (c : Char) : String.singleton c ≠ "" := by
  intro h
  have := congrArg String.data h
  exact List.noConfusion this

theorem gradeQuestion_ok (i : ℕ) (q : Question) (a : String)
    (fb : FeedbackEntry) (inc : Option IncorrectEntry)
    (h : gradeQuestion i q a = .ok (fb, inc)) :
    fb.question = q.question.getD ("Question " ++ toString (i + 1)) ∧
    fb.user_answer = normalizeAnswer a ∧
    fb.max_marks = questionMarks q ∧
    fb.marks_awarded = (if fb.is_correct then questionMarks q else 0) ∧
    fb.explanation = q.explanation.getD "No explanation provided." ∧
    (q.options ≠ [] →
      ∃ c rest, fb.correct_answer = String.singleton c ++ ") " ++ rest) ∧
    (inc = none ↔ fb.is_correct = true) ∧
    (∀ e, inc = some e → e.topic = q.topic.getD "General") := by
  unfold gradeQuestion at h
  split at h
  next e2 heq => exact Except.noConfusion h
  next cl ctext heq =>
    injection h with h2
    rw [Prod.mk.injEq] at h2
    obtain ⟨hfb, hinc⟩ := h2
    subst hfb
    subst hinc
    refine ⟨rfl, rfl, rfl, rfl, rfl, ?_, ?_, ?_⟩
    · intro hne
      obtain ⟨c, rfl⟩ := correctLetterText_some q hne cl ctext heq
      refine ⟨c, ctext, ?_⟩
      dsimp only [letterStr]
      rw [if_pos (singleton_ne_empty c)]
    · cases hb : isAnswerCorrect cl a <;> simp [hb]
    · intro e he
      cases hb : isAnswerCorrect cl a
      · rw [hb] at he
        simp only [Bool.false_eq_true, if_neg] at he
        injection he with he2
        rw [← he2]
      · rw [hb] at he
        simp at he

theorem gradeList_spec (i : ℕ) (qs : List Question) (ans : List String)
    (hlen : qs.length = ans.length)
    (t : ℚ) (c : ℕ) (fbs : List FeedbackEntry) (incs : List IncorrectEntry)
    (h : gradeList i qs ans = .ok (t, c, fbs, incs)) :
    fbs.length = qs.length ∧
    t = (fbs.map (·.marks_awarded)).sum ∧
    c = (fbs.filter (·.is_correct)).length ∧
    fbs.map (·.max_marks) = qs.map questionMarks ∧
    (∀ fb ∈ fbs, fb.marks_awarded = (if fb.is_correct then fb.max_marks else 0)) ∧
    incs.length + c = fbs.length ∧
    (∀ e ∈ incs, ∃ q ∈ qs, e.topic = q.topic.getD "General") := by
  induction qs generalizing i ans t c fbs incs with
  | nil =>
    injection h with h2
    rw [Prod.mk.injEq, Prod.mk.injEq, Prod.mk.injEq] at h2
    obtain ⟨h2a, h2b, h2c, h2d⟩ := h2
    subst h2a
    subst h2b
    subst h2c
    subst h2d
    simp
  | cons q qs ih =>
    cases ans with
    | nil => simp at hlen
    | cons a ans =>
      simp only [gradeList] at h
      split at h
      next e2 heq => exact Except.noConfusion h
      next fb inc heq =>
        split at h
        next e2 heq2 => exact Except.noConfusion h
        next t2 c2 fbs2 incs2 heq2 =>
          injection h with h2
          rw [Prod.mk.injEq, Prod.mk.injEq, Prod.mk.injEq] at h2
          obtain ⟨h2a, h2b, h2c, h2d⟩ := h2
          subst h2a
          subst h2b
          subst h2c
          subst h2d
          have hlen2 : qs.length = ans.length := by
            simp only [List.length_cons] at hlen
            omega
          obtain ⟨ihl, iht, ihc, ihm, ihp, ihil, ihit⟩ :=
            ih (i + 1) ans hlen2 t2 c2 fbs2 incs2 heq2
          obtain ⟨-, -, hmax, hmarks, -, -, hincnone, htopic⟩ :=
            gradeQuestion_ok i q a fb inc heq
          refine ⟨?_, ?_, ?_, ?_, ?_, ?_, ?_⟩
          · simp [ihl]
          · simp [iht]
          · cases hb : fb.is_correct <;>
              simp [List.filter_cons, hb, ihc] <;> omega
          · simp [hmax, ihm]
          · intro x hx
            rcases List.mem_cons.mp hx with rfl | hx2
            · rw [hmarks, hmax]
            · exact ihp x hx2
          · cases hb : fb.is_correct with
            | true =>
              rw [hincnone.mpr hb]
              simp only [List.length_cons, if_true]
              omega
            | false =>
              have hne : inc ≠ none := by
                intro hcn
                rw [hincnone.mp hcn] at hb
                exact Bool.noConfusion hb
              obtain ⟨e, rfl⟩ := Option.ne_none_iff_exists'.mp hne
              simp only [List.length_cons]
              simp
              omega
          · intro e he
            cases hinc : inc with
            | none =>
              rw [hinc] at he
              obtain ⟨q2, hq2, ht2⟩ := ihit e he
              exact ⟨q2, by simp [hq2], ht2⟩
            | some e2 =>
              rw [hinc] at he
              rcases List.mem_cons.mp he with rfl | he2
              · exact ⟨q, by simp, htopic e hinc⟩
              · obtain ⟨q2, hq2, ht2⟩ := ihit e he2
                exact ⟨q2, by simp [hq2], ht2⟩

theorem feedback_sums (l : List FeedbackEntry)
    (hnn : ∀ fb ∈ l, 0 ≤ fb.max_marks)
    (hm : ∀ fb ∈ l, fb.marks_awarded = (if fb.is_correct then fb.max_marks else 0)) :
    (l.map (·.marks_awarded)).sum = ((l.filter (·.is_correct)).map (·.max_marks)).sum ∧
    (l.map (·.marks_awarded)).sum ≤ (l.map (·.max_marks)).sum ∧
    0 ≤ (l.map (·.marks_awarded)).sum := by
  induction l with
  | nil => simp
  | cons fb l ih =>
    obtain ⟨ih1, ih2, ih3⟩ := ih (fun x hx => hnn x (by simp [hx]))
      (fun x hx => hm x (by simp [hx]))
    have hfb := hm fb (by simp)
    have hfbn := hnn fb (by simp)
    cases hb : fb.is_correct with
    | true =>
      rw [hb, if_pos rfl] at hfb
      refine ⟨?_, ?_, ?_⟩
      · simp [List.filter_cons, hb, hfb, ih1]
      · simp only [List.map_cons, List.sum_cons]
        exact add_le_add (le_of_eq hfb) ih2
      · simp only [List.map_cons, List.sum_cons]
        rw [hfb]
        positivity
    | false =>
      rw [hb] at hfb
      simp only [Bool.false_eq_true, if_neg, if_false] at hfb
      refine ⟨?_, ?_, ?_⟩
      · simp [List.filter_cons, hb, hfb, ih1]
      · simp only [List.map_cons, List.sum_cons, hfb, zero_add]
        calc (l.map (·.marks_awarded)).sum ≤ (l.map (·.max_marks)).sum := ih2
          _ ≤ fb.max_marks + (l.map (·.max_marks)).sum := by linarith
      · simp only [List.map_cons, List.sum_cons, hfb, zero_add]
        exact ih3

theorem roundHalfEven_nonneg (x : ℚ) (h : 0 ≤ x) : 0 ≤ roundHalfEven x := by
  unfold roundHalfEven
  have hf : 0 ≤ ⌊x⌋ := Int.floor_nonneg.mpr h
  split_ifs <;> omega

theorem roundHalfEven_le (x : ℚ) (B : ℤ) (h : x ≤ B) : roundHalfEven x ≤ B := by
  unfold roundHalfEven
  have hf : ⌊x⌋ ≤ B := by
    have := Int.floor_le_floor h
    rwa [Int.floor_intCast] at this
  have hkey : ¬(x - ⌊x⌋ < 1/2) → ⌊x⌋ < B := by
    intro hn
    have h1 : (1:ℚ)/2 ≤ x - ⌊x⌋ := not_lt.mp hn
    have h2 : (⌊x⌋:ℚ) + 1/2 ≤ (B:ℚ) := by
      have := Int.floor_le x
      linarith
    have h3 : (⌊x⌋:ℚ) < (B:ℚ) := by linarith
    exact_mod_cast h3
  split_ifs with h1 h2 h3
  · exact hf
  · have := hkey h1
    omega
  · exact hf
  · have := hkey h1
    omega

theorem pyRound_nonneg (x : ℚ) (d : ℕ) (h : 0 ≤ x) : 0 ≤ pyRound x d := by
  unfold pyRound
  have h2 : (0:ℤ) ≤ roundHalfEven (x * 10 ^ d) :=
    roundHalfEven_nonneg _ (by positivity)
  have h3 : (0:ℚ) ≤ (roundHalfEven (x * 10 ^ d) : ℚ) := by exact_mod_cast h2
  positivity

theorem pyRound_le (x : ℚ) (d : ℕ) (B : ℤ) (h : x ≤ B) : pyRound x d ≤ B := by
  unfold pyRound
  rw [div_le_iff (by positivity)]
  have h2 : x * 10 ^ d ≤ ((B * 10 ^ d : ℤ) : ℚ) := by
    push_cast
    exact mul_le_mul_of_nonneg_right h (by positivity)
  have h3 := roundHalfEven_le _ _ h2
  exact_mod_cast h3

theorem pyRound_zero (d : ℕ) : pyRound 0 d = 0 := by
  unfold pyRound roundHalfEven
  norm_num

/-- C5.  For every evaluation that returns a result (with all question marks
nonnegative), `total_score` is the sum of the marks (`max_marks`) of the
correctly answered questions, `max_score` is the sum of all questions'
marks, `total_score ≤ max_score`, `percentage` is
`round(total_score/max_score*100, 2)` (0 when `max_score = 0`) and lies in
`[0, 100]`. -/
theorem c5_grader_score_aggregation (qs : List Question) (ans : List String)
    (r : EvalResult) (hm : ∀ q ∈ qs, 0 ≤ questionMarks q)
    (h : evaluate_quiz_ai qs ans = .ok r) :
    r.total_score = ((r.feedback.filter (·.is_correct)).map (·.max_marks)).sum ∧
    r.max_score = (qs.map questionMarks).sum ∧
    r.total_score ≤ r.max_score ∧
    r.percentage =
      pyRound (if 0 < r.max_score then r.total_score / r.max_score * 100 else 0) 2 ∧
    0 ≤ r.percentage ∧ r.percentage ≤ 100 ∧
    (r.max_score = 0 → r.percentage = 0) := by
  unfold evaluate_quiz_ai at h
  by_cases hg : qs = [] ∨ ans = [] ∨ qs.length ≠ ans.length
  · rw [if_pos hg] at h
    exact Except.noConfusion h
  · rw [if_neg hg] at h
    push_neg at hg
    obtain ⟨hq, ha, hlen⟩ := hg
    split at h
    next e heq => exact Except.noConfusion h
    next t c fbs incs heq =>
      injection h with h2
      subst h2
      dsimp only
      obtain ⟨hl, ht, hc, hmax, hper, -, -⟩ := gradeList_spec 0 qs ans hlen t c fbs incs heq
      have hnn : ∀ fb ∈ fbs, 0 ≤ fb.max_marks := by
        intro fb hfb
        have : fb.max_marks ∈ fbs.map (·.max_marks) := List.mem_map_of_mem _ hfb
        rw [hmax] at this
        rcases List.mem_map.mp this with ⟨q, hq2, hq3⟩
        rw [← hq3]
        exact hm q hq2
      obtain ⟨hsum1, hsum2, hsum3⟩ := feedback_sums fbs hnn hper
      have hmaxsum : (fbs.map (·.max_marks)).sum = (qs.map questionMarks).sum := by
        rw [hmax]
      have htmax : t ≤ (qs.map questionMarks).sum := by
        rw [ht, ← hmaxsum]
        exact hsum2
      have htnn : 0 ≤ t := by
        rw [ht]
        exact hsum3
      refine ⟨?_, rfl, ?_, rfl, ?_, ?_, ?_⟩
      · rw [ht, hsum1]
      · exact htmax
      · apply pyRound_nonneg
        split_ifs with hpos
        · positivity
        · exact le_refl 0
      · have hb : (if 0 < (qs.map questionMarks).sum then
            t / (qs.map questionMarks).sum * 100 else 0) ≤ ((100:ℤ):ℚ) := by
          split_ifs with hpos
          · push_cast
            rw [div_mul_eq_mul_div, div_le_iff hpos]
            nlinarith
          · norm_num
        have := pyRound_le _ 2 100 hb
        exact_mod_cast this
      · intro h0
        rw [h0]
        rw [if_neg (lt_irrefl 0)]
        exact pyRound_zero 2

/-- C5 witness: the single sample question answered with the lowercase
letter of its correct option yields a result whose aggregates satisfy the
claimed relations. -/
theorem c5_grader_score_aggregation_witness :
    ∃ r, evaluate_quiz_ai [sampleQuestion] ["a"] = .ok r ∧
      r.total_score ≤ r.max_score ∧ 0 ≤ r.percentage ∧ r.percentage ≤ 100 := by
  cases hr : evaluate_quiz_ai [sampleQuestion] ["a"] with
  | error e =>
    exfalso
    unfold evaluate_quiz_ai at hr
    rw [if_neg (by decide)] at hr
    split at hr
    next e2 heq =>
      obtain ⟨out, hok⟩ := gradeList_ok_of_gradable 0 [sampleQuestion] ["a"] (by decide)
      rw [heq] at hok
      exact Except.noConfusion hok
    next t c fbs incs heq => exact Except.noConfusion hr
  | ok r =>
    have hp := c5_grader_score_aggregation [sampleQuestion] ["a"] r (by decide) hr
    exact ⟨r, rfl, hp.2.2.1, hp.2.2.2.2.1, hp.2.2.2.2.2.1⟩

theorem gradeList_pos (i : ℕ) (qs : List Question) (ans : List String)
    (t : ℚ) (c : ℕ) (fbs : List FeedbackEntry) (incs : List IncorrectEntry)
    (h : gradeList i qs ans = .ok (t, c, fbs, incs))
    (j : ℕ) (q : Question) (a : String) (fb : FeedbackEntry)
    (hq : qs.get? j = some q) (ha : ans.get? j = some a)
    (hf : fbs.get? j = some fb) :
    ∃ inc, gradeQuestion (i + j) q a = .ok (fb, inc) := by
  induction qs generalizing i ans t c fbs incs j with
  | nil =>
    rw [List.get?_nil] at hq
    exact Option.noConfusion hq
  | cons q0 qs ih =>
    cases ans with
    | nil =>
      rw [List.get?_nil] at ha
      exact Option.noConfusion ha
    | cons a0 ans =>
      simp only [gradeList] at h
      split at h
      next e2 heq => exact Except.noConfusion h
      next fb0 inc0 heq =>
        split at h
        next e2 heq2 => exact Except.noConfusion h
        next t2 c2 fbs2 incs2 heq2 =>
          injection h with h2
          rw [Prod.mk.injEq, Prod.mk.injEq, Prod.mk.injEq] at h2
          obtain ⟨h2a, h2b, h2c, h2d⟩ := h2
          subst h2a
          subst h2b
          subst h2c
          subst h2d
          cases j with
          | zero =>
            rw [List.get?_cons_zero] at hq ha hf
            injection hq with hq2
            injection ha with ha2
            injection hf with hf2
            subst hq2
            subst ha2
            subst hf2
            exact ⟨inc0, by rw [Nat.add_zero]; exact heq⟩
          | succ j2 =>
            rw [List.get?_cons_succ] at hq ha hf
            have := ih (i + 1) ans t2 c2 fbs2 incs2 heq2 j2 hq ha hf
            rwa [show i + 1 + j2 = i + (j2 + 1) by omega] at this

/-- A question with an empty options list: the option scan finds nothing and
the fallback is skipped (`if not correct_letter and options` is false), so
`correct_letter` stays `""`. -/
def noOptionsQuestion : Question :=
  { question := some "Orphan question"
    options := []
    correct_option := "A"
    difficulty := none
    points := some 1
    marks := none
    explanation := none
    topic := none }

/-- C6 (counterexample).  Grading a question with the submitted answer
`" a"` stores `"A"` — the stripped, uppercased answer — in the feedback
entry, not the raw answer as submitted; and for a question whose options
list is empty the `correct_answer` field is the fixed string
`"No correct answer provided"`, which does not have the `"<letter>) <text>"`
shape (its second character is not `')'`). -/
theorem c6_feedback_entry_counterexample :
    ∃ r, evaluate_quiz_ai [noOptionsQuestion] [" a"] = .ok r ∧
      r.feedback.map (fun fb => fb.user_answer) = ["A"] ∧
      r.feedback.map (fun fb => fb.correct_answer) = ["No correct answer provided"] ∧
      "A" ≠ " a" ∧
      (∀ c rest, "No correct answer provided" ≠ String.singleton c ++ ") " ++ rest) := by
  refine ⟨_, rfl, by decide, by decide, by decide, ?_⟩
  intro c rest h
  have h2 := congrArg String.data h
  rw [show (String.singleton c ++ ") " ++ rest).data =
      c :: ')' :: ' ' :: rest.data from rfl] at h2
  have h3 : 'o' = ')' := by
    have := congrArg (fun l => l.get? 1) h2
    simpa using this
  exact absurd h3 (by decide)

/-- C6 (amended).  For every graded question, the emitted FeedbackEntry
contains the original question text (or the positional default), the
normalized user answer (stripped and uppercased — not the raw answer as
submitted), the question's marks as `max_marks`, `marks_awarded` equal to
those marks if correct and 0 otherwise, the question's explanation (or the
placeholder), and — whenever the options list is non-empty — a rendered
correct-answer string of the form `"<letter>) <text>"`; there is one entry
per question, in input order. -/
theorem c6_feedback_entry_shape (qs : List Question) (ans : List String)
    (r : EvalResult) (h : evaluate_quiz_ai qs ans = .ok r) :
    r.feedback.length = qs.length ∧
    (∀ j q a fb, qs.get? j = some q → ans.get? j = some a →
      r.feedback.get? j = some fb →
      fb.question = q.question.getD ("Question " ++ toString (j + 1)) ∧
      fb.user_answer = normalizeAnswer a ∧
      fb.max_marks = questionMarks q ∧
      fb.marks_awarded = (if fb.is_correct then questionMarks q else 0) ∧
      fb.explanation = q.explanation.getD "No explanation provided." ∧
      (q.options ≠ [] →
        ∃ c rest, fb.correct_answer = String.singleton c ++ ") " ++ rest)) := by
  unfold evaluate_quiz_ai at h
  by_cases hg : qs = [] ∨ ans = [] ∨ qs.length ≠ ans.length
  · rw [if_pos hg] at h
    exact Except.noConfusion h
  · rw [if_neg hg] at h
    push_neg at hg
    obtain ⟨hq, ha, hlen⟩ := hg
    split at h
    next e heq => exact Except.noConfusion h
    next t c fbs incs heq =>
      injection h with h2
      subst h2
      dsimp only
      obtain ⟨hl, -, -, -, -, -, -⟩ := gradeList_spec 0 qs ans hlen t c fbs incs heq
      refine ⟨hl, ?_⟩
      intro j q a fb hqj haj hfj
      obtain ⟨inc, hgq⟩ := gradeList_pos 0 qs ans t c fbs incs heq j q a fb hqj haj hfj
      rw [Nat.zero_add] at hgq
      obtain ⟨e1, e2, e3, e4, e5, e6, -, -⟩ := gradeQuestion_ok j q a fb inc hgq
      exact ⟨e1, e2, e3, e4, e5, e6⟩

/-- C6 witness: grading the sample question answered `" b"` produces a
feedback entry with the normalized answer `"B"`, the question's marks, and a
rendered `"<letter>) <text>"` correct answer. -/
theorem c6_feedback_entry_shape_witness :
    ∃ r fb, evaluate_quiz_ai [sampleQuestion] [" b"] = .ok r ∧
      r.feedback.get? 0 = some fb ∧
      fb.user_answer = normalizeAnswer " b" ∧
      fb.max_marks = questionMarks sampleQuestion ∧
      (∃ c rest, fb.correct_answer = String.singleton c ++ ") " ++ rest) := by
  cases hr : evaluate_quiz_ai [sampleQuestion] [" b"] with
  | error e =>
    exfalso
    unfold evaluate_quiz_ai at hr
    rw [if_neg (by decide)] at hr
    split at hr
    next e2 heq =>
      obtain ⟨out, hok⟩ := gradeList_ok_of_gradable 0 [sampleQuestion] [" b"] (by decide)
      rw [heq] at hok
      exact Except.noConfusion hok
    next t c fbs incs heq => exact Except.noConfusion hr
  | ok r =>
    obtain ⟨hlen, hall⟩ := c6_feedback_entry_shape [sampleQuestion] [" b"] r hr
    have h0 : ∃ fb, r.feedback.get? 0 = some fb := by
      cases hfb : r.feedback with
      | nil => rw [hfb] at hlen; exact absurd hlen (by decide)
      | cons fb rest => exact ⟨fb, by simp [hfb]⟩
    obtain ⟨fb, hfb⟩ := h0
    obtain ⟨-, e2, e3, -, -, e6⟩ := hall 0 sampleQuestion " b" fb rfl rfl hfb
    exact ⟨r, fb, rfl, hfb, e2, e3, e6 (by decide)⟩

theorem find?_isSome_of_mem {α : Type} (l : List α) (p : α → Bool) (x : α)
    (hx : x ∈ l) (hpx : p x = true) : ∃ y, l.find? p = some y := by
  induction l with
  | nil => cases hx
  | cons a l ih =>
    cases hpa : p a with
    | true => exact ⟨a, by simp [List.find?, hpa]⟩
    | false =>
      rcases List.mem_cons.mp hx with rfl | hx2
      · rw [hpa] at hpx
        exact Bool.noConfusion hpx
      · obtain ⟨y, hy⟩ := ih hx2
        exact ⟨y, by simp [List.find?, hpa, hy]⟩

theorem correctLetter_of_match (q : Question) (L : Char)
    (hco : optionMatchChars q = [L, ')'])
    (hm : ∃ opt ∈ q.options, optionMatches q opt = true) :
    ∃ ct, correctLetterText q = .ok (some L, ct) := by
  obtain ⟨opt0, hmem, hpx⟩ := hm
  obtain ⟨opt, hfind⟩ := find?_isSome_of_mem q.options (optionMatches q) opt0 hmem hpx
  have hopt : optionMatches q opt = true := List.find?_some hfind
  unfold optionMatches at hopt
  rw [hco] at hopt
  obtain ⟨cs, hl, -⟩ := beginsWith_cons hopt
  have hl2 : opt.data.map Char.toUpper = L :: cs := hl
  cases hd : opt.data with
  | nil => rw [hd] at hl2; simp at hl2
  | cons c tail =>
    rw [hd] at hl2
    simp only [List.map_cons, List.cons.injEq] at hl2
    obtain ⟨hcL, -⟩ := hl2
    refine ⟨if 3 < opt.data.length then (⟨opt.data.drop 3⟩ : String) else "", ?_⟩
    unfold correctLetterText findCorrectOption
    simp only [hfind]
    rw [hd]
    simp only [List.head?_cons]
    rw [hcL]

theorem gradeQuestion_of_letter (i : ℕ) (q : Question) (ans : String)
    (L : Char) (ct : String)
    (hclt : correctLetterText q = .ok (some L, ct)) :
    gradeQuestion i q ans = .ok
      ({ question := q.question.getD ("Question " ++ toString (i + 1))
         user_answer := normalizeAnswer ans
         correct_answer := String.singleton L ++ ") " ++ ct
         is_correct := isAnswerCorrect (some L) ans
         marks_awarded := if isAnswerCorrect (some L) ans then questionMarks q else 0
         max_marks := questionMarks q
         explanation := q.explanation.getD "No explanation provided." },
       if isAnswerCorrect (some L) ans then none
       else some { question := q.question.getD ("Question " ++ toString (i + 1))
                   user_answer := normalizeAnswer ans
                   correct_answer := String.singleton L ++ ") " ++ ct
                   topic := q.topic.getD "General"
                   difficulty := q.difficulty.getD "Medium" }) := by
  unfold gradeQuestion
  simp only [hclt]
  simp only [letterStr]
  rw [if_pos (singleton_ne_empty L)]

/-- C7.  For any two questions with stated correct options `"A"` and `"B"`
whose option lists contain (case-insensitively) matching `"A)"`/`"B)"`
prefixed options and no explicit topic: grading the answers `["a", "B"]`
marks both correct (matching is case-insensitive on the first character of
the trimmed answer), yields `total_score = max_score` and suggestions
beginning with the celebratory perfect-score message; grading `["B", "A"]`
yields `correct_answers = 0` and a suggestions list containing the
per-topic breakdown line counting 2 incorrect answers. -/
theorem topicCounts_pair (e1 e2 : IncorrectEntry)
    (h1 : e1.topic = "General") (h2 : e2.topic = "General") :
    topicCounts [e1, e2] = [("General", 2)] := by
  unfold topicCounts
  simp only [List.foldl_cons, List.foldl_nil, h1, h2]
  decide

theorem c7_two_question_scenarios (q1 q2 : Question)
    (h1 : q1.correct_option = "A") (h2 : q2.correct_option = "B")
    (hm1 : ∃ opt ∈ q1.options, optionMatches q1 opt = true)
    (hm2 : ∃ opt ∈ q2.options, optionMatches q2 opt = true)
    (ht1 : q1.topic = none) (ht2 : q2.topic = none) :
    (∃ r, evaluate_quiz_ai [q1, q2] ["a", "B"] = .ok r ∧
      r.correct_answers = 2 ∧
      r.total_score = r.max_score ∧
      r.suggestions.head? = some "🎉 Perfect score! You got all 2 questions right!") ∧
    (∃ r, evaluate_quiz_ai [q1, q2] ["B", "A"] = .ok r ∧
      r.correct_answers = 0 ∧
      "- General: 2 incorrect answers" ∈ r.suggestions) := by
  have hco1 : optionMatchChars q1 = ['A', ')'] := by
    unfold optionMatchChars correctOptNorm
    rw [h1]
    decide
  have hco2 : optionMatchChars q2 = ['B', ')'] := by
    unfold optionMatchChars correctOptNorm
    rw [h2]
    decide
  obtain ⟨ct1, hclt1⟩ := correctLetter_of_match q1 'A' hco1 hm1
  obtain ⟨ct2, hclt2⟩ := correctLetter_of_match q2 'B' hco2 hm2
  have hguard : ¬(([q1, q2] : List Question) = [] ∨ (["a", "B"] : List String) = [] ∨
      ([q1, q2] : List Question).length ≠ (["a", "B"] : List String).length) := by
    simp
  have hguard2 : ¬(([q1, q2] : List Question) = [] ∨ (["B", "A"] : List String) = [] ∨
      ([q1, q2] : List Question).length ≠ (["B", "A"] : List String).length) := by
    simp
  constructor
  · -- scenario 1: both correct
    have hg1 := gradeQuestion_of_letter 0 q1 "a" 'A' ct1 hclt1
    have hg2 := gradeQuestion_of_letter 1 q2 "B" 'B' ct2 hclt2
    rw [show isAnswerCorrect (some 'A') "a" = true from by decide] at hg1
    rw [show isAnswerCorrect (some 'B') "B" = true from by decide] at hg2
    simp only [if_true] at hg1 hg2
    unfold evaluate_quiz_ai
    rw [if_neg hguard]
    have hgl : gradeList 0 [q1, q2] ["a", "B"] =
        gradeList 0 [q1, q2] ["a", "B"] := rfl
    simp only [gradeList, hg1, hg2]
    refine ⟨_, rfl, ?_, ?_, ?_⟩
    · norm_num
    · dsimp only
      simp [questionMarks]
    · dsimp only
      simp only [buildSuggestions]
      rw [if_neg (by simp)]
      simp only [List.head?_cons, List.length_cons, List.length_nil]
      decide
  · -- scenario 2: both incorrect
    have hg1 := gradeQuestion_of_letter 0 q1 "B" 'A' ct1 hclt1
    have hg2 := gradeQuestion_of_letter 1 q2 "A" 'B' ct2 hclt2
    rw [show isAnswerCorrect (some 'A') "B" = false from by decide] at hg1
    rw [show isAnswerCorrect (some 'B') "A" = false from by decide] at hg2
    rw [ht1] at hg1
    rw [ht2] at hg2
    simp only [Bool.false_eq_true, if_false, Option.getD_none] at hg1 hg2
    unfold evaluate_quiz_ai
    rw [if_neg hguard2]
    simp only [gradeList, hg1, hg2]
    refine ⟨_, rfl, ?_, ?_⟩
    · norm_num
    · dsimp only
      simp only [buildSuggestions]
      rw [if_pos (by simp)]
      rw [topicCounts_pair _ _ rfl rfl]
      have hline : topicLine "General" 2 = "- General: 2 incorrect answers" := by
        decide
      simp [hline]

/-- A second representative question with correct option `"B"`. -/
def sampleQuestionB : Question :=
  { question := some "What is 3 times 3?"
    options := ["A) 6", "B) 9", "C) 12", "D) 3"]
    correct_option := "B"
    difficulty := some "hard"
    points := some 3
    marks := none
    explanation := some "3 times 3 is 9."
    topic := none }

/-- C7 witness: the two sample questions with answers `["a", "B"]` /
`["B", "A"]` exhibit both scenarios. -/
theorem c7_two_question_scenarios_witness :
    (∃ r, evaluate_quiz_ai [sampleQuestion, sampleQuestionB] ["a", "B"] = .ok r ∧
      r.correct_answers = 2 ∧
      r.total_score = r.max_score ∧
      r.suggestions.head? = some "🎉 Perfect score! You got all 2 questions right!") ∧
    (∃ r, evaluate_quiz_ai [sampleQuestion, sampleQuestionB] ["B", "A"] = .ok r ∧
      r.correct_answers = 0 ∧
      "- General: 2 incorrect answers" ∈ r.suggestions) :=
  c7_two_question_scenarios sampleQuestion sampleQuestionB rfl rfl
    (by decide) (by decide) rfl rfl

/-- One submission row (joined with its quiz) as consumed by the Leaderboard
Ranker; `created_at` is a timestamp (larger = more recent). -/
structure LeaderboardSub where
  user_id : String
  total_score : ℚ
  max_score : ℚ
  created_at : ℤ
  subject : String
  grade : ℤ
  deriving DecidableEq

/-- The sort order of `get_leaderboard_data` (crud.py 242-246):
`ORDER BY total_score DESC, max_score DESC, created_at DESC`.
`lbBefore a b` holds when `a` may appear no later than `b`. -/
def lbBefore (a b : LeaderboardSub) : Prop :=
  b.total_score < a.total_score ∨
    (b.total_score = a.total_score ∧
      (b.max_score < a.max_score ∨
        (b.max_score = a.max_score ∧ b.created_at ≤ a.created_at)))

instance : DecidableRel lbBefore := fun a b => by
  unfold lbBefore
  infer_instance

theorem lbBefore_total (a b : LeaderboardSub) : lbBefore a b ∨ lbBefore b a := by
  unfold lbBefore
  rcases lt_trichotomy a.total_score b.total_score with h | h | h
  · right; left; exact h
  · rcases lt_trichotomy a.max_score b.max_score with h2 | h2 | h2
    · right; right; exact ⟨h, Or.inl h2⟩
    · rcases le_total a.created_at b.created_at with h3 | h3
      · right; right; exact ⟨h, Or.inr ⟨h2, h3⟩⟩
      · left; right; exact ⟨h.symm, Or.inr ⟨h2.symm, h3⟩⟩
    · left; right; exact ⟨h.symm, Or.inl h2⟩
  · left; left; exact h

theorem lbBefore_trans (a b c : LeaderboardSub)
    (h1 : lbBefore a b) (h2 : lbBefore b c) : lbBefore a c := by
  unfold lbBefore at h1 h2 ⊢
  rcases h1 with h1 | ⟨h1e, h1r⟩
  · rcases h2 with h2 | ⟨h2e, h2r⟩
    · left; linarith
    · left; linarith
  · rcases h2 with h2 | ⟨h2e, h2r⟩
    · left; linarith
    · refine Or.inr ⟨by linarith, ?_⟩
      rcases h1r with h1m | ⟨h1me, h1c⟩
      · rcases h2r with h2m | ⟨h2me, h2c⟩
        · left; linarith
        · left; linarith
      · rcases h2r with h2m | ⟨h2me, h2c⟩
        · left; linarith
        · right; exact ⟨by linarith, le_trans h2c h1c⟩

instance : IsTotal LeaderboardSub lbBefore := ⟨lbBefore_total⟩

instance : IsTrans LeaderboardSub lbBefore := ⟨lbBefore_trans⟩

/-- Embedding of `crud.get_leaderboard_data` (crud.py 225-248): the grade and
subject filters are applied by the query before the rows reach the sort, so
the function is modelled on the already-filtered rows; it sorts by
`lbBefore` and truncates to `limit`. -/
def get_leaderboard_data (subs : List LeaderboardSub) (limit : ℕ) :
    List LeaderboardSub :=
  (List.insertionSort lbBefore subs).take limit

/-- One leaderboard response entry (routes.py 708-717). -/
structure LeaderboardEntry where
  rank : ℕ
  user_id : String
  score : ℚ
  max_score : ℚ
  percentage : ℚ
  subject : String
  grade : ℤ
  date : ℤ
  deriving DecidableEq

/-- The entry built for one submission (routes.py 702-717): the percentage is
`round(total/max*100, 1)` when `max_score > 0`, else `0.0`. -/
def mkLeaderboardEntry (rank : ℕ) (s : LeaderboardSub) : LeaderboardEntry :=
  { rank := rank
    user_id := s.user_id
    score := s.total_score
    max_score := s.max_score
    percentage :=
      if 0 < s.max_score then pyRound (s.total_score / s.max_score * 100) 1 else 0
    subject := s.subject
    grade := s.grade
    date := s.created_at }

/-- The `for idx, item in enumerate(items, 1)` loop of routes.py 702. -/
def rankEntries (i : ℕ) : List LeaderboardSub → List LeaderboardEntry
  | [] => []
  | s :: rest => mkLeaderboardEntry (i + 1) s :: rankEntries (i + 1) rest

/-- Embedding of the `/quiz/leaderboard` endpoint body (routes.py 698-723). -/
def get_leaderboard (subs : List LeaderboardSub) (limit : ℕ) :
    List LeaderboardEntry :=
  rankEntries 0 (get_leaderboard_data subs limit)

theorem rankEntries_length (i : ℕ) (l : List LeaderboardSub) :
    (rankEntries i l).length = l.length := by
  induction l generalizing i with
  | nil => rfl
  | cons s rest ih => simp [rankEntries, ih]

theorem rankEntries_get (i : ℕ) (l : List LeaderboardSub) (j : ℕ)
    (e : LeaderboardEntry) (h : (rankEntries i l).get? j = some e) :
    ∃ s, l.get? j = some s ∧ e = mkLeaderboardEntry (i + j + 1) s := by
  induction l generalizing i j with
  | nil => exact Option.noConfusion h
  | cons s rest ih =>
    cases j with
    | zero =>
      rw [show rankEntries i (s :: rest) =
        mkLeaderboardEntry (i + 1) s :: rankEntries (i + 1) rest from rfl,
        List.get?_cons_zero] at h
      injection h with h2
      exact ⟨s, rfl, h2.symm⟩
    | succ j2 =>
      rw [show rankEntries i (s :: rest) =
        mkLeaderboardEntry (i + 1) s :: rankEntries (i + 1) rest from rfl,
        List.get?_cons_succ] at h
      obtain ⟨s2, hs2, he⟩ := ih (i + 1) j2 h
      refine ⟨s2, by rw [List.get?_cons_succ]; exact hs2, ?_⟩
      rw [he]
      congr 1
      omega

/-- C8.  The Leaderboard Ranker sorts by `total_score` descending, then
`max_score` descending, then `created_at` descending, truncates to `limit`,
assigns `rank` as the 1-based position after sorting, and computes each
entry's percentage as `round(total_score/max_score*100, 1)` (or 0 when
`max_score` is not positive); in particular, for equal `total_score = 80`, a
submission with `max_score = 120` ranks above one with `max_score = 100`. -/
theorem c8_leaderboard_ranking (subs : List LeaderboardSub) (limit : ℕ) :
    List.Sorted lbBefore (get_leaderboard_data subs limit) ∧
    (get_leaderboard_data subs limit).length = min limit subs.length ∧
    (get_leaderboard subs limit).length = (get_leaderboard_data subs limit).length ∧
    (∀ j e, (get_leaderboard subs limit).get? j = some e →
      e.rank = j + 1 ∧
      ∃ s, (get_leaderboard_data subs limit).get? j = some s ∧
        e.user_id = s.user_id ∧
        e.score = s.total_score ∧
        e.max_score = s.max_score ∧
        e.percentage = (if 0 < s.max_score then
          pyRound (s.total_score / s.max_score * 100) 1 else 0)) ∧
    (∀ s1 s2 : LeaderboardSub, s1.total_score = 80 → s1.max_score = 100 →
      s2.total_score = 80 → s2.max_score = 120 →
      (get_leaderboard_data [s1, s2] 10).get? 0 = some s2) := by
  refine ⟨?_, ?_, ?_, ?_, ?_⟩
  · exact (List.sorted_insertionSort lbBefore subs).sublist
      (List.take_sublist limit _)
  · rw [get_leaderboard_data, List.length_take,
      (List.perm_insertionSort lbBefore subs).length_eq]
  · exact rankEntries_length 0 _
  · intro j e h
    obtain ⟨s, hs, he⟩ := rankEntries_get 0 _ j e h
    refine ⟨by rw [he]; simp [mkLeaderboardEntry], s, hs, ?_, ?_, ?_, ?_⟩ <;>
      rw [he] <;> rfl
  · intro s1 s2 ht1 hm1 ht2 hm2
    have hnot : ¬lbBefore s1 s2 := by
      unfold lbBefore
      rw [ht1, hm1, ht2, hm2]
      norm_num
    rw [get_leaderboard_data]
    rw [show List.insertionSort lbBefore [s1, s2] =
        List.orderedInsert lbBefore s1 (List.orderedInsert lbBefore s2 []) from rfl]
    rw [show List.orderedInsert lbBefore s2 [] = [s2] from rfl]
    rw [List.orderedInsert, if_neg hnot]
    rfl

/-- A sample leaderboard submission with scores 80/100. -/
def subMax100 : LeaderboardSub :=
  { user_id := "alice", total_score := 80, max_score := 100, created_at := 1,
    subject := "math", grade := 5 }

/-- A sample leaderboard submission with scores 80/120 (harder quiz). -/
def subMax120 : LeaderboardSub :=
  { user_id := "bob", total_score := 80, max_score := 120, created_at := 2,
    subject := "math", grade := 5 }

/-- C8 witness: with equal raw score 80, the 80/120 submission ranks first,
and the ranked response for the two submissions has 2 entries. -/
theorem c8_leaderboard_ranking_witness :
    (get_leaderboard_data [subMax100, subMax120] 10).get? 0 = some subMax120 ∧
    (get_leaderboard [subMax100, subMax120] 10).length = 2 := by
  have h := c8_leaderboard_ranking [subMax100, subMax120] 10
  exact ⟨h.2.2.2.2 subMax100 subMax120 rfl rfl rfl rfl,
    (h.2.2.1).trans ((h.2.1).trans (by norm_num))⟩

/-- Errors surfaced by the `/quiz/generate` route; the blanket
`except Exception` handler (routes.py 152-154) re-raises every failure —
including the question-count HTTPException — as an HTTP 500, so each failure
path stays a failure. -/
inductive GenRouteError where
  | badQuestionCount
  | providerFailure
  deriving DecidableEq

/-- The observable outcome of one `/quiz/generate` request: the response (or
error), the planner invocations with their `total_questions` argument, and
whether the provider was called and a quiz row persisted. -/
structure GenerateOutcome where
  result : Except GenRouteError (List Question)
  plannerCalls : List ℕ
  distribution : Option DifficultyMix
  providerCalled : Bool
  persisted : Bool

/-- Embedding of the `/quiz/generate` route body (routes.py 34-154): the
`if not 5 <= total_questions <= 30` check runs first; only then is the
Distribution Planner consulted (its history rows are passed as `history`),
the provider called (`generate_quiz_ai`, modelled by the `attempt` oracle),
the question count adjusted, and the quiz persisted.  The `max_score` clamp
and the JSON envelope are not modelled. -/
def generate_quiz (req_total : ℕ) (history : List SubmissionRec)
    (attempt : ℕ → Except ProviderFailure (List Question))
    (mediumPoints : ℚ) : GenerateOutcome :=
  if ¬(5 ≤ req_total ∧ req_total ≤ 30) then
    { result := .error .badQuestionCount
      plannerCalls := []
      distribution := none
      providerCalled := false
      persisted := false }
  else
    let dist := get_adaptive_question_distribution history req_total
    match generate_quiz_ai attempt with
    | .error _ =>
      { result := .error .providerFailure
        plannerCalls := [req_total]
        distribution := some dist
        providerCalled := true
        persisted := false }
    | .ok qs =>
      { result := .ok (adjustQuestionCount qs req_total mediumPoints)
        plannerCalls := [req_total]
        distribution := some dist
        providerCalled := true
        persisted := true }

/-- C9.  The `/quiz/generate` entry point rejects every request whose
`total_questions` is below 5 or above 30 before any planning, provider call
or persistence; consequently the Distribution Planner is only ever invoked
with `5 ≤ total_questions ≤ 30` through the public interface. -/
theorem c9_generate_question_count_guard (n : ℕ) (history : List SubmissionRec)
    (attempt : ℕ → Except ProviderFailure (List Question)) (mp : ℚ) :
    ((n < 5 ∨ 30 < n) →
      generate_quiz n history attempt mp =
        { result := .error .badQuestionCount
          plannerCalls := []
          distribution := none
          providerCalled := false
          persisted := false }) ∧
    (∀ m ∈ (generate_quiz n history attempt mp).plannerCalls, 5 ≤ m ∧ m ≤ 30) := by
  constructor
  · intro h
    rw [generate_quiz, if_pos (by omega)]
  · intro m hm
    by_cases hb : 5 ≤ n ∧ n ≤ 30
    · rw [generate_quiz, if_neg (not_not_intro hb)] at hm
      cases hpr : generate_quiz_ai attempt with
      | error e =>
        rw [hpr] at hm
        simp only [List.mem_singleton] at hm
        rw [hm]
        exact hb
      | ok qs =>
        rw [hpr] at hm
        simp only [List.mem_singleton] at hm
        rw [hm]
        exact hb
    · rw [generate_quiz, if_pos hb] at hm
      simp at hm

/-- C9 witness: a request for 3 questions is rejected before planning,
provider call or persistence; a request for 10 questions only invokes the
planner with an in-range argument. -/
theorem c9_generate_question_count_guard_witness :
    generate_quiz 3 [] (fun _ => Except.error ProviderFailure.validation) 2 =
      { result := .error .badQuestionCount
        plannerCalls := []
        distribution := none
        providerCalled := false
        persisted := false } ∧
    (∀ m ∈ (generate_quiz 10 [] (fun _ => Except.ok []) 2).plannerCalls,
      5 ≤ m ∧ m ≤ 30) :=
  ⟨(c9_generate_question_count_guard 3 [] _ 2).1 (Or.inl (by norm_num)),
   (c9_generate_question_count_guard 10 [] _ 2).2⟩

/-- Errors surfaced by the `/quiz/evaluate` route (routes.py 166-384). -/
inductive EvalRouteError where
  | notFound
  | noAnswers
  | lengthMismatch
  | blankAnswers (positions : List ℕ)
  | gradingFailure
  deriving DecidableEq

/-- The observable outcome of one `/quiz/evaluate` request: the response (or
error), the Grader invocations, and whether a submission row was created. -/
structure EvaluateOutcome where
  result : Except EvalRouteError EvalResult
  graderCalls : List (List Question × List String)
  submissionCreated : Bool

/-- The comprehension
`[i+1 for i, ans in enumerate(req.user_answers) if not ans.strip()]`
(routes.py 263), with `i` starting at the given offset. -/
def blankPositionsGo (i : ℕ) : List String → List ℕ
  | [] => []
  | a :: rest =>
    if pyStrip a = "" then (i + 1) :: blankPositionsGo (i + 1) rest
    else blankPositionsGo (i + 1) rest

/-- The 1-based positions of blank (empty or whitespace-only) answers. -/
def blankPositions (l : List String) : List ℕ := blankPositionsGo 0 l

/-- Embedding of the `/quiz/evaluate` route body (routes.py 166-384): quiz
lookup (modelled by the `Option` argument holding the parsed question list),
the empty-answers check, the length check, the blank-answer check with its
reported positions, then the Grader call and the submission insert. -/
def evaluate_quiz (quiz : Option (List Question)) (answers : List String) :
    EvaluateOutcome :=
  match quiz with
  | none => { result := .error .notFound, graderCalls := [], submissionCreated := false }
  | some qd =>
    if answers = [] then
      { result := .error .noAnswers, graderCalls := [], submissionCreated := false }
    else if answers.length ≠ qd.length then
      { result := .error .lengthMismatch, graderCalls := [], submissionCreated := false }
    else if blankPositions answers ≠ [] then
      { result := .error (.blankAnswers (blankPositions answers))
        graderCalls := []
        submissionCreated := false }
    else
      match evaluate_quiz_ai qd answers with
      | .error _ =>
        { result := .error .gradingFailure
          graderCalls := [(qd, answers)]
          submissionCreated := false }
      | .ok r =>
        { result := .ok r
          graderCalls := [(qd, answers)]
          submissionCreated := true }

theorem mem_blankPositionsGo (i k : ℕ) (l : List String) :
    k ∈ blankPositionsGo i l ↔
      ∃ j a, l.get? j = some a ∧ pyStrip a = "" ∧ k = i + j + 1 := by
  induction l generalizing i with
  | nil => simp [blankPositionsGo]
  | cons x rest ih =>
    by_cases hx : pyStrip x = ""
    · rw [blankPositionsGo, if_pos hx]
      rw [List.mem_cons, ih]
      constructor
      · rintro (rfl | ⟨j, a, hj, ha, rfl⟩)
        · exact ⟨0, x, rfl, hx, by omega⟩
        · exact ⟨j + 1, a, by simpa using hj, ha, by omega⟩
      · rintro ⟨j, a, hj, ha, rfl⟩
        cases j with
        | zero => left; omega
        | succ j2 => right; exact ⟨j2, a, by simpa using hj, ha, by omega⟩
    · rw [blankPositionsGo, if_neg hx]
      rw [ih]
      constructor
      · rintro ⟨j, a, hj, ha, rfl⟩
        exact ⟨j + 1, a, by simpa using hj, ha, by omega⟩
      · rintro ⟨j, a, hj, ha, rfl⟩
        cases j with
        | zero =>
          rw [List.get?_cons_zero] at hj
          injection hj with hj2
          exact absurd (hj2 ▸ ha) hx
        | succ j2 => exact ⟨j2, a, by simpa using hj, ha, by omega⟩

theorem blankPositions_ne_nil (l : List String) (a : String)
    (ha : a ∈ l) (hblank : pyStrip a = "") : blankPositions l ≠ [] := by
  obtain ⟨j, hj⟩ := List.mem_iff_get?.mp ha
  have : (j + 1) ∈ blankPositions l := by
    rw [blankPositions, mem_blankPositionsGo]
    exact ⟨j, a, hj, hblank, by omega⟩
  exact List.ne_nil_of_mem this

/-- C10.  The `/quiz/evaluate` entry point raises an error and creates no
submission record whenever any submitted answer is empty or whitespace-only;
when the quiz exists and the counts match, the error is the blank-answers
rejection reporting exactly the 1-based positions of the blank answers.  The
Grader is therefore never invoked through the public interface with a blank
answer — even though the Grader itself merely marks a blank answer
incorrect. -/
theorem c10_blank_answers_rejected (quiz : Option (List Question))
    (answers : List String) :
    ((∃ a ∈ answers, pyStrip a = "") →
      (∃ e, (evaluate_quiz quiz answers).result = .error e) ∧
      (evaluate_quiz quiz answers).graderCalls = [] ∧
      (evaluate_quiz quiz answers).submissionCreated = false) ∧
    (∀ qa ∈ (evaluate_quiz quiz answers).graderCalls,
      ∀ a ∈ qa.2, pyStrip a ≠ "") ∧
    (∀ qd, quiz = some qd → answers ≠ [] → answers.length = qd.length →
      (∃ a ∈ answers, pyStrip a = "") →
      ∃ ps, (evaluate_quiz quiz answers).result = .error (.blankAnswers ps) ∧
        (∀ k, k ∈ ps ↔
          ∃ j a, answers.get? j = some a ∧ pyStrip a = "" ∧ k = j + 1)) ∧
    ((evaluate_quiz_ai [sampleQuestion] [" "]).map
      (fun r => (r.correct_answers, r.feedback.map (·.is_correct)))) =
      .ok (0, [false]) := by
  refine ⟨?_, ?_, ?_, by rfl⟩
  · rintro ⟨a, ha, hblank⟩
    cases quiz with
    | none => exact ⟨⟨.notFound, rfl⟩, rfl, rfl⟩
    | some qd =>
      rw [evaluate_quiz]
      by_cases h1 : answers = []
      · rw [if_pos h1]
        exact ⟨⟨.noAnswers, rfl⟩, rfl, rfl⟩
      · rw [if_neg h1]
        by_cases h2 : answers.length ≠ qd.length
        · rw [if_pos h2]
          exact ⟨⟨.lengthMismatch, rfl⟩, rfl, rfl⟩
        · rw [if_neg h2]
          rw [if_pos (blankPositions_ne_nil answers a ha hblank)]
          exact ⟨⟨.blankAnswers (blankPositions answers), rfl⟩, rfl, rfl⟩
  · intro qa hqa a ha hblank
    cases quiz with
    | none => exact absurd hqa (by simp [evaluate_quiz])
    | some qd =>
      rw [evaluate_quiz] at hqa
      by_cases h1 : answers = []
      · rw [if_pos h1] at hqa
        exact absurd hqa (by simp)
      · rw [if_neg h1] at hqa
        by_cases h2 : answers.length ≠ qd.length
        · rw [if_pos h2] at hqa
          exact absurd hqa (by simp)
        · rw [if_neg h2] at hqa
          by_cases h3 : blankPositions answers ≠ []
          · rw [if_pos h3] at hqa
            exact absurd hqa (by simp)
          · rw [if_neg h3] at hqa
            push_neg at h3
            have hmem : qa = (qd, answers) := by
              cases hev : evaluate_quiz_ai qd answers with
              | error e =>
                rw [hev] at hqa
                simpa using hqa
              | ok r =>
                rw [hev] at hqa
                simpa using hqa
            rw [hmem] at ha
            exact blankPositions_ne_nil answers a ha hblank h3
  · rintro qd rfl h1 h2 ⟨a, ha, hblank⟩
    rw [evaluate_quiz, if_neg h1, if_neg (by omega),
      if_pos (blankPositions_ne_nil answers a ha hblank)]
    refine ⟨blankPositions answers, rfl, ?_⟩
    intro k
    rw [blankPositions, mem_blankPositionsGo]
    constructor
    · rintro ⟨j, b, hj, hb, rfl⟩
      exact ⟨j, b, hj, hb, by omega⟩
    · rintro ⟨j, b, hj, hb, rfl⟩
      exact ⟨j, b, hj, hb, by omega⟩

/-- C10 witness: a single whitespace-only answer for an existing one-question
quiz is rejected with the blank-answers error naming position 1, with no
grader call and no submission. -/
theorem c10_blank_answers_rejected_witness :
    (∃ e, (evaluate_quiz (some [sampleQuestion]) [" "]).result = .error e) ∧
    (evaluate_quiz (some [sampleQuestion]) [" "]).graderCalls = [] ∧
    (evaluate_quiz (some [sampleQuestion]) [" "]).submissionCreated = false :=
  (c10_blank_answers_rejected (some [sampleQuestion]) [" "]).1
    ⟨" ", by simp, by decide⟩

end AIQuizzer
